import Mathlib

/-!
Verification of the `validate` Go package (TeamTrumpet/validate).

The package is embedded shallowly:

* The two anchored regular expressions `validCoordinateRegex` and
  `validPhoneRegex` are embedded as `RegularExpression Char` values from
  Mathlib; a character class such as `[0-9]` is written as the alternation
  of its member characters, `X?` as `1 + X`, and `X+` as `X * X.star`.
  Since both patterns are anchored with `^...$` and are matched with
  `MatchString`, a Go match is exactly a whole-string match, i.e.
  `rmatch` on the string's character list.  Concatenation in the source
  pattern is associated to the right here (association is semantically
  irrelevant for regular-expression concatenation).
* Go strings are modelled as Lean `String` (a list of unicode scalar
  values, as Go's regexp engine also works rune by rune).
* The `ValidationErrors` struct holds a Go map `map[string][]string`; it
  is modelled as an association list in insertion order with at most one
  binding per key, with `lookupKey` for map indexing and `setKey` for map
  assignment (overwrite the binding in place, or append a fresh binding).
* `encoding/json` values are modelled by the inductive type `Json`.
  Go serializes map keys in sorted order; the object here lists the
  key/value pairs in the map's insertion order instead, which represents
  the same field-to-reasons mapping (the properties proved below only
  concern that mapping).
* A Go `error` result is modelled by `Option GoError`: `none` is the nil
  error, `GoError.validationErrors` a `*ValidationErrors` value and
  `GoError.errorString` a value produced by `errors.New`.
-/

open RegularExpression

/-- The ten characters matched by the `[0-9]` (and `\d`) character class. -/
def digitChars : List Char :=
  ['0', '1', '2', '3', '4', '5', '6', '7', '8', '9']

/-- The character class `[0-9]` (equivalently `\d`): alternation over the
ten digit characters. -/
def rdigit : RegularExpression Char :=
  char '0' + char '1' + char '2' + char '3' + char '4' +
    char '5' + char '6' + char '7' + char '8' + char '9'

/-- The character class `[-.●]` used as a separator in the phone pattern:
hyphen, period, or the bullet character. -/
def phoneSep : RegularExpression Char :=
  char '-' + char '.' + char '●'

/-- The sub-pattern `\-?\d+` followed by `(\.\d+)?`: capture groups 1 and 2
(resp. 3 and 4) of `validCoordinateRegex`, i.e. one signed decimal number. -/
def decimalNumber : RegularExpression Char :=
  ((1 + char '-') * (rdigit * rdigit.star)) *
    (1 + char '.' * (rdigit * rdigit.star))

/-- `validCoordinateRegex`, the anchored pattern
`^(\-?\d+)(\.\d+)?,(\-?\d+)(\.\d+)?$` from the source: a signed decimal
number, a comma, and a second signed decimal number. -/
def validCoordinateRegex : RegularExpression Char :=
  decimalNumber * (char ',' * decimalNumber)

/-- `validPhoneRegex`, the anchored pattern
`^\(?([0-9]{3})\)?\ [-.●]?([0-9]{3})[-.●]?([0-9]{4})$` from the source.
Note the `\ `: a mandatory literal space between the optional closing
parenthesis and the optional `[-.●]` separator. -/
def validPhoneRegex : RegularExpression Char :=
  (1 + char '(') *
    ((rdigit * rdigit * rdigit) *
      ((1 + char ')') *
        (char ' ' *
          ((1 + phoneSep) *
            ((rdigit * rdigit * rdigit) *
              ((1 + phoneSep) *
                (rdigit * rdigit * rdigit * rdigit)))))))

/-- `Phone` from the source: `validPhoneRegex.MatchString(field.String())`. -/
def Phone (s : String) : Bool :=
  validPhoneRegex.rmatch s.data

/-- `Coordinates` from the source: returns false when
`validCoordinateRegex` does not match the field's string, true otherwise. -/
def Coordinates (s : String) : Bool :=
  if !(validCoordinateRegex.rmatch s.data) then false else true

/-- Modelled from the spec: `Timezone` calls `time.LoadLocation`, a Go
standard-library function that is not part of this repository; the spec
says the value must "resolve to a known timezone-location name via the
runtime's timezone database lookup".  Per the documented behavior of
`time.LoadLocation`: the name `""` or `"UTC"` resolves to UTC without
consulting the database, `"Local"` resolves to the local zone, and any
other name resolves exactly when it names an entry of the IANA database
(modelled by the parameter `db`).  `none` models a non-nil lookup error. -/
def LoadLocation (db : List String) (name : String) : Option String :=
  if name = "" ∨ name = "UTC" then some "UTC"
  else if name = "Local" then some "Local"
  else if name ∈ db then some name
  else none

/-- `Timezone` from the source: true exactly when `time.LoadLocation`
returns a nil error for the field's string. -/
def Timezone (db : List String) (s : String) : Bool :=
  (LoadLocation db s).isSome

/-- One entry of the foreign `validator.ValidationErrors` collection: the
fields of `validator.FieldError` that `NewValidationErrors` reads. -/
structure FieldError where
  NameNamespace : String
  Tag : String
deriving DecidableEq, Repr

/-- Go map indexing `m[k]`: the value bound to `k`, if any. -/
def lookupKey {β : Type} : List (String × β) → String → Option β
  | [], _ => none
  | p :: rest, k => if p.1 = k then some p.2 else lookupKey rest k

/-- Go map assignment `m[k] = v`: replace the binding of `k` in place if
present, otherwise add a fresh binding. -/
def setKey {β : Type} : List (String × β) → String → β → List (String × β)
  | [], k, v => [(k, v)]
  | p :: rest, k, v => if p.1 = k then (k, v) :: rest else p :: setKey rest k v

/-- `ValidationErrors` from the source: wraps the map
`errors map[string][]string` from field path to reason codes. -/
structure ValidationErrors where
  errors : List (String × List String)
deriving DecidableEq, Repr

/-- A JSON value, as produced by `encoding/json`. -/
inductive Json where
  | str : String → Json
  | arr : List Json → Json
  | obj : List (String × Json) → Json

/-- `MarshalJSON` from the source: `json.Marshal(e.errors)`, the object
whose keys are the map's keys and whose values are the reason-code lists
serialized as arrays of strings. -/
def ValidationErrors.MarshalJSON (e : ValidationErrors) : Json :=
  Json.obj (e.errors.map (fun p => (p.1, Json.arr (p.2.map Json.str))))

/-- `Len` from the source: `len(e.errors)`, the number of map keys. -/
def ValidationErrors.Len (e : ValidationErrors) : Nat :=
  e.errors.length

/-- `HasErrors` from the source: `e.Len() > 0`. -/
def ValidationErrors.HasErrors (e : ValidationErrors) : Bool :=
  decide (e.Len > 0)

/-- `AddError` from the source: append the reason to the field's list if
the field is present, otherwise bind the field to the singleton list. -/
def ValidationErrors.AddError (e : ValidationErrors) (field err : String) :
    ValidationErrors :=
  match lookupKey e.errors field with
  | some v => ⟨setKey e.errors field (v ++ [err])⟩
  | none => ⟨setKey e.errors field [err]⟩

/-- `Error` from the source: when errors exist, the fixed prefix followed
by the map's keys (collected by iterating the map) joined by `", "`;
the empty string otherwise. -/
def ValidationErrors.Error (e : ValidationErrors) : String :=
  if e.HasErrors then
    "Validation error on fields: " ++
      String.intercalate ", " (e.errors.foldl (fun ks p => ks ++ [p.1]) [])
  else ""

/-- The path manipulation inside `NewValidationErrors`:
`strings.Join(strings.Split(ns, ".")[1:], ".")`, i.e. drop the first
dotted segment (the base struct namespace) and re-join the rest. -/
def stripRootSegment (ns : String) : String :=
  String.intercalate "." ((ns.splitOn ".").drop 1)

/-- `NewValidationErrors` from the source: start from an empty map and,
when the foreign collection is non-nil, assign `m[stripped path] = [tag]`
for each entry in order (an assignment, not an append: a later entry with
the same stripped path overwrites the earlier one). -/
def NewValidationErrors (verrs : Option (List FieldError)) : ValidationErrors :=
  match verrs with
  | none => ⟨[]⟩
  | some l =>
    ⟨l.foldl (fun m e => setKey m (stripRootSegment e.NameNamespace) [e.Tag]) []⟩

/-- A non-nil Go `error` value that the package can mention: either a
`*ValidationErrors` aggregate or a sentinel made by `errors.New`. -/
inductive GoError where
  | validationErrors : ValidationErrors → GoError
  | errorString : String → GoError
deriving DecidableEq, Repr

/-- `ErrValidation` from the source: `errors.New("validation")`. -/
def ErrValidation : GoError :=
  GoError.errorString "validation"

/-- Modelled from the spec: the external Struct Walker (the reflection
based validator library, whose code is not part of this repository)
evaluates every annotated rule of the instance, collects all failures,
and "return[s] a collection of per-field failures, or an empty/absent
result if none".  An instance is therefore represented by the list of
rule violations the walker finds in it, and the walker's returned error
is nil exactly when that list is empty. -/
def walkerResult (violations : List FieldError) : Option (List FieldError) :=
  if violations = [] then none else some violations

/-- `Struct` from the source: run the walker; wrap a non-nil result with
`NewValidationErrors` and return it, otherwise return nil. -/
def Struct (violations : List FieldError) : Option GoError :=
  match walkerResult violations with
  | some errs => some (GoError.validationErrors (NewValidationErrors (some errs)))
  | none => none

/-- Parsing back a list of JSON strings; fails on any other element. -/
def parseStrings : List Json → Option (List String)
  | [] => some []
  | Json.str s :: rest => (parseStrings rest).map (fun ss => s :: ss)
  | _ :: _ => none

/-- Parsing back one serialized reason list: an array of strings. -/
def parseReasonArray : Json → Option (List String)
  | Json.arr js => parseStrings js
  | _ => none

/-- Parsing back the entries of a serialized aggregate object. -/
def parseEntries : List (String × Json) → Option (List (String × List String))
  | [] => some []
  | kv :: rest =>
    match parseReasonArray kv.2, parseEntries rest with
    | some rs, some tail => some ((kv.1, rs) :: tail)
    | _, _ => none

/-- Parsing back a serialized aggregate: an object whose values are
arrays of strings, returned as the field-to-reasons pairs. -/
def parseErrorObject : Json → Option (List (String × List String))
  | Json.obj kvs => parseEntries kvs
  | _ => none

/-- The rule tag of the last entry of `l` whose stripped field path is
`p`, if any: entries later in the list take precedence. -/
def lastTagFor (l : List FieldError) (p : String) : Option String :=
  match l with
  | [] => none
  | e :: rest =>
    match lastTagFor rest p with
    | some t => some t
    | none => if stripRootSegment e.NameNamespace = p then some e.Tag else none

/-- The invariant of §3 of the spec: every field key appears at most once
in the mapping and every bound reason list is non-empty. -/
def WellFormedMap (m : List (String × List String)) : Prop :=
  (m.map Prod.fst).Nodup ∧ ∀ p ∈ m, p.2 ≠ []

/-- The invariant, read on an aggregate. -/
def WellFormed (e : ValidationErrors) : Prop :=
  WellFormedMap e.errors

/-- The keys of a serialized JSON object. -/
def objKeys : Json → List String
  | Json.obj kvs => kvs.map Prod.fst
  | _ => []

/-- The value a serialized JSON object binds to a key, if any. -/
def objValue : Json → String → Option Json
  | Json.obj kvs, k => lookupKey kvs k
  | _, _ => none

/-- The three characters of the code's `[-.●]` separator class. -/
def phoneSepChars : List Char :=
  ['-', '.', '●']

/-- The four separator characters named by the claim about the phone
pattern: space, hyphen, period, or bullet. -/
def claimSepChars : List Char :=
  [' ', '-', '.', '●']

/-- Exactly `n` digit characters. -/
def digitsSpec (n : Nat) (x : List Char) : Prop :=
  x.length = n ∧ ∀ c ∈ x, c ∈ digitChars

/-- An optional separator as the claim words it: absent, or one character
among space, hyphen, period, and bullet. -/
def optClaimSep (s : List Char) : Prop :=
  s = [] ∨ ∃ c, s = [c] ∧ c ∈ claimSepChars

/-- An optional separator as the code's pattern has it: absent, or one
character among hyphen, period, and bullet. -/
def optPhoneSep (s : List Char) : Prop :=
  s = [] ∨ ∃ c, s = [c] ∧ c ∈ phoneSepChars

/-- The phone-number shape asserted by the claim (followed verbatim, for
comparison with the code's pattern): an optional parenthesized 3-digit
area code, an optional separator, 3 digits, an optional separator, and
4 digits. -/
def claimPhoneShape (l : List Char) : Prop :=
  ∃ area s1 mid s2 last4,
    l = area ++ s1 ++ mid ++ s2 ++ last4 ∧
    (area = [] ∨ ∃ d, area = '(' :: (d ++ [')']) ∧ digitsSpec 3 d) ∧
    optClaimSep s1 ∧ digitsSpec 3 mid ∧ optClaimSep s2 ∧ digitsSpec 4 last4

/-- The phone-number shape the code's pattern actually accepts: an
optional opening parenthesis, a mandatory 3-digit area code, an optional
closing parenthesis, a mandatory space, an optional `[-.●]` separator,
3 digits, an optional `[-.●]` separator, and 4 digits. -/
def amendedPhoneShape (l : List Char) : Prop :=
  ∃ op d1 cp s1 mid s2 last4,
    l = op ++ d1 ++ cp ++ [' '] ++ s1 ++ mid ++ s2 ++ last4 ∧
    (op = [] ∨ op = ['(']) ∧ digitsSpec 3 d1 ∧ (cp = [] ∨ cp = [')']) ∧
    optPhoneSep s1 ∧ digitsSpec 3 mid ∧ optPhoneSep s2 ∧ digitsSpec 4 last4

/-- A signed decimal number as the claim words it: an optionally negative
integer part with an optional fractional part. -/
def signedDecimal (x : List Char) : Prop :=
  ∃ sign ip fp,
    x = sign ++ ip ++ fp ∧ (sign = [] ∨ sign = ['-']) ∧
    ip ≠ [] ∧ (∀ c ∈ ip, c ∈ digitChars) ∧
    (fp = [] ∨ ∃ ds, fp = '.' :: ds ∧ ds ≠ [] ∧ ∀ c ∈ ds, c ∈ digitChars)

/-- The coordinate shape asserted by the claim: two signed decimal
numbers separated by a single comma, with no bound checks. -/
def specCoordShape (l : List Char) : Prop :=
  ∃ x y, l = x ++ ',' :: y ∧ signedDecimal x ∧ signedDecimal y

/-! ### Lemmas about the Go map model -/

theorem lookupKey_setKey {β : Type} (m : List (String × β)) (k : String) (v : β)
    (k' : String) :
    lookupKey (setKey m k v) k' = if k' = k then some v else lookupKey m k' := by
  induction m with
  | nil =>
    by_cases h : k' = k
    · subst h; simp [setKey, lookupKey]
    · simp [setKey, lookupKey, h, Ne.symm h]
  | cons p rest ih =>
    by_cases hp : p.1 = k <;> by_cases h : k' = k
    · subst h; simp [setKey, lookupKey, hp]
    · simp [setKey, lookupKey, hp, h, Ne.symm h]
    · subst h; simp [setKey, lookupKey, hp, ih]
    · simp [setKey, lookupKey, hp, h, ih]

theorem keys_setKey {β : Type} (m : List (String × β)) (k : String) (v : β) :
    (setKey m k v).map Prod.fst =
      if k ∈ m.map Prod.fst then m.map Prod.fst else m.map Prod.fst ++ [k] := by
  induction m with
  | nil => simp [setKey]
  | cons p rest ih =>
    by_cases hp : p.1 = k
    · simp [setKey, hp]
    · by_cases hk : k ∈ rest.map Prod.fst <;>
        simp [setKey, hp, Ne.symm hp, ih, hk]

theorem mem_setKey {β : Type} {m : List (String × β)} {k : String} {v : β}
    {p : String × β} (h : p ∈ setKey m k v) : p = (k, v) ∨ p ∈ m := by
  induction m with
  | nil => simpa [setKey] using h
  | cons q rest ih =>
    by_cases hq : q.1 = k
    · simp [setKey, hq] at h
      rcases h with h | h
      · exact Or.inl h
      · exact Or.inr (List.mem_cons_of_mem _ h)
    · simp [setKey, hq] at h
      rcases h with h | h
      · exact Or.inr (by rw [h]; exact List.mem_cons_self q rest)
      · rcases ih h with h' | h'
        · exact Or.inl h'
        · exact Or.inr (List.mem_cons_of_mem _ h')

/-! ### The construction from walker output (C1) -/

theorem lookupKey_foldl_setKey (l : List FieldError)
    (m : List (String × List String)) (p : String) :
    lookupKey
        (l.foldl (fun m e => setKey m (stripRootSegment e.NameNamespace) [e.Tag]) m)
        p =
      match lastTagFor l p with
      | some t => some [t]
      | none => lookupKey m p := by
  induction l generalizing m with
  | nil => simp [lastTagFor]
  | cons e rest ih =>
    rw [List.foldl_cons, ih]
    cases hrest : lastTagFor rest p with
    | some t => simp [lastTagFor, hrest]
    | none =>
      simp only [lastTagFor, hrest]
      rw [lookupKey_setKey]
      by_cases h : stripRootSegment e.NameNamespace = p
      · simp [h]
      · simp [h, Ne.symm h]

/-- C1: for every failure list from the walker, the aggregate built by
`NewValidationErrors` binds a stripped field path exactly when some
failure has that stripped path, and then to the one-element reason list
holding the rule tag of the last such failure (earlier tags for the same
stripped path are overwritten, not accumulated). -/
theorem newValidationErrors_keeps_last_tag (l : List FieldError) (p : String) :
    lookupKey (NewValidationErrors (some l)).errors p =
      (lastTagFor l p).map (fun t => [t]) := by
  have h := lookupKey_foldl_setKey l [] p
  simp only [NewValidationErrors] at *
  rw [h]
  cases lastTagFor l p <;> simp [lookupKey]

/-- C5: the phone predicate accepts "(555) 123-4567" and rejects
"555-1234" (no area code: the pattern requires three digits and a space
before the final seven digits). -/
theorem phone_concrete_examples :
    Phone "(555) 123-4567" = true ∧ Phone "555-1234" = false := by
  constructor <;> decide

/-- C9: the timezone predicate accepts the empty string, because the
runtime's timezone lookup resolves the empty name to UTC with no error,
whatever the timezone database contains. -/
theorem timezone_accepts_empty_string (db : List String) :
    Timezone db "" = true := by
  simp [Timezone, LoadLocation]

/-- C10: the top-level `Struct` operation returns either nil or a
`*ValidationErrors` aggregate, and in particular never the exported
`ErrValidation` sentinel. -/
theorem struct_never_returns_sentinel (violations : List FieldError) :
    (Struct violations = none ∨
      ∃ ve, Struct violations = some (GoError.validationErrors ve)) ∧
    Struct violations ≠ some ErrValidation := by
  by_cases h : violations = [] <;>
    simp [Struct, walkerResult, h, ErrValidation]

/-! ### Keys of the constructed aggregate (C2) -/

theorem keys_foldl_toFinset (l : List FieldError) (m : List (String × List String)) :
    ((l.foldl (fun m e => setKey m (stripRootSegment e.NameNamespace) [e.Tag]) m).map
        Prod.fst).toFinset =
      (m.map Prod.fst).toFinset ∪
        (l.map (fun e => stripRootSegment e.NameNamespace)).toFinset := by
  induction l generalizing m with
  | nil => simp
  | cons e rest ih =>
    rw [List.foldl_cons, ih, keys_setKey]
    by_cases h : stripRootSegment e.NameNamespace ∈ m.map Prod.fst
    · rw [if_pos h]
      ext a
      simp only [List.map_cons, List.toFinset_cons, Finset.mem_union,
        Finset.mem_insert, List.mem_toFinset]
      constructor
      · rintro (ha | ha)
        · exact Or.inl ha
        · exact Or.inr (Or.inr ha)
      · rintro (ha | rfl | ha)
        · exact Or.inl ha
        · exact Or.inl h
        · exact Or.inr ha
    · rw [if_neg h]
      ext a
      simp
      tauto

theorem nodup_keys_foldl (l : List FieldError) (m : List (String × List String))
    (hm : (m.map Prod.fst).Nodup) :
    ((l.foldl (fun m e => setKey m (stripRootSegment e.NameNamespace) [e.Tag]) m).map
        Prod.fst).Nodup := by
  induction l generalizing m with
  | nil => exact hm
  | cons e rest ih =>
    rw [List.foldl_cons]
    apply ih
    rw [keys_setKey]
    by_cases h : stripRootSegment e.NameNamespace ∈ m.map Prod.fst
    · rwa [if_pos h]
    · rw [if_neg h]
      exact List.nodup_append.2
        ⟨hm, List.nodup_singleton _, List.disjoint_singleton.2 h⟩

theorem len_newValidationErrors (l : List FieldError) :
    (NewValidationErrors (some l)).Len =
      (l.map (fun e => stripRootSegment e.NameNamespace)).dedup.length := by
  have hkeys := keys_foldl_toFinset l []
  have hnodup := nodup_keys_foldl l [] (by simp)
  simp only [List.map_nil, List.toFinset_nil, Finset.empty_union] at hkeys
  calc (NewValidationErrors (some l)).Len
      = ((NewValidationErrors (some l)).errors.map Prod.fst).length := by
        simp [ValidationErrors.Len]
    _ = ((NewValidationErrors (some l)).errors.map Prod.fst).toFinset.card :=
        (List.toFinset_card_of_nodup hnodup).symm
    _ = (l.map (fun e => stripRootSegment e.NameNamespace)).toFinset.card := by
        simp only [NewValidationErrors]
        rw [hkeys]
    _ = (l.map (fun e => stripRootSegment e.NameNamespace)).dedup.length :=
        List.card_toFinset _

/-- C2: with zero rule violations the top-level `Struct` returns nil;
with at least one violation it returns a `*ValidationErrors` aggregate on
which `HasErrors` is true and whose `Len` is the number of distinct
failing (root-stripped) field paths. -/
theorem struct_spec (violations : List FieldError) :
    (violations = [] → Struct violations = none) ∧
    (violations ≠ [] →
      Struct violations =
          some (GoError.validationErrors (NewValidationErrors (some violations))) ∧
        (NewValidationErrors (some violations)).HasErrors = true ∧
        (NewValidationErrors (some violations)).Len =
          (violations.map (fun e => stripRootSegment e.NameNamespace)).dedup.length) := by
  constructor
  · intro h
    simp [Struct, walkerResult, h]
  · intro h
    refine ⟨by simp [Struct, walkerResult, h], ?_, len_newValidationErrors violations⟩
    have hl := len_newValidationErrors violations
    simp [ValidationErrors.HasErrors, hl, List.length_pos, List.dedup_eq_nil, h]

/-- Witness for C2: evaluated at the empty violation list and at a single
violation on the field `User.Email`. -/
theorem struct_spec_witness :
    Struct [] = none ∧
    Struct [⟨"User.Email", "required"⟩] =
        some (GoError.validationErrors
          (NewValidationErrors (some [⟨"User.Email", "required"⟩]))) ∧
    (NewValidationErrors (some [⟨"User.Email", "required"⟩])).HasErrors = true ∧
    (NewValidationErrors (some [⟨"User.Email", "required"⟩])).Len = 1 := by
  have h := (struct_spec [⟨"User.Email", "required"⟩]).2 (by simp)
  refine ⟨(struct_spec []).1 rfl, h.1, h.2.1, ?_⟩
  rw [h.2.2]
  simp

/-! ### The human-readable summary (C7) -/

theorem foldl_keys_eq_map {β : Type} (l : List (String × β)) (acc : List String) :
    l.foldl (fun ks p => ks ++ [p.1]) acc = acc ++ l.map Prod.fst := by
  induction l generalizing acc with
  | nil => simp
  | cons p rest ih => simp [ih]

/-- C7: when errors exist, `Error` is the fixed prefix followed by the
failing field keys in the mapping's iteration order joined by a comma and
a space; with no errors it is the empty string. -/
theorem error_string_spec (e : ValidationErrors) :
    (e.HasErrors = true →
      e.Error = "Validation error on fields: " ++
        String.intercalate ", " (e.errors.map Prod.fst)) ∧
    (e.HasErrors = false → e.Error = "") := by
  constructor
  · intro h
    simp [ValidationErrors.Error, h, foldl_keys_eq_map]
  · intro h
    simp [ValidationErrors.Error, h]

/-- Witness for C7: a two-field aggregate and the empty aggregate. -/
theorem error_string_spec_witness :
    (ValidationErrors.mk [("email", ["required"]), ("phone", ["phone"])]).Error =
        "Validation error on fields: email, phone" ∧
    (ValidationErrors.mk []).Error = "" := by
  constructor
  · rw [(error_string_spec ⟨[("email", ["required"]), ("phone", ["phone"])]⟩).1
      (by decide)]
    rfl
  · exact (error_string_spec ⟨[]⟩).2 (by decide)

/-! ### Well-formedness of reachable aggregates (C8) -/

theorem wellFormedMap_setKey {m : List (String × List String)} {k : String}
    {v : List String} (hm : WellFormedMap m) (hv : v ≠ []) :
    WellFormedMap (setKey m k v) := by
  constructor
  · rw [keys_setKey]
    by_cases h : k ∈ m.map Prod.fst
    · rw [if_pos h]; exact hm.1
    · rw [if_neg h]
      exact List.nodup_append.2
        ⟨hm.1, List.nodup_singleton _, List.disjoint_singleton.2 h⟩
  · intro p hp
    rcases mem_setKey hp with rfl | hp'
    · exact hv
    · exact hm.2 p hp'

theorem wellFormedMap_foldl (l : List FieldError) (m : List (String × List String))
    (hm : WellFormedMap m) :
    WellFormedMap
      (l.foldl (fun m e => setKey m (stripRootSegment e.NameNamespace) [e.Tag]) m) := by
  induction l generalizing m with
  | nil => exact hm
  | cons e rest ih =>
    rw [List.foldl_cons]
    exact ih _ (wellFormedMap_setKey hm (by simp))

theorem wellFormed_newValidationErrors (verrs : Option (List FieldError)) :
    WellFormed (NewValidationErrors verrs) := by
  cases verrs with
  | none =>
    refine ⟨?_, ?_⟩ <;> simp [NewValidationErrors, WellFormedMap]
  | some l => exact wellFormedMap_foldl l [] ⟨List.nodup_nil, by simp⟩

theorem wellFormed_addError {e : ValidationErrors} (he : WellFormed e)
    (f r : String) : WellFormed (e.AddError f r) := by
  unfold ValidationErrors.AddError
  cases h : lookupKey e.errors f with
  | some v => exact wellFormedMap_setKey he (by simp)
  | none => exact wellFormedMap_setKey he (by simp)

theorem wellFormed_foldl_addError (adds : List (String × String))
    (e : ValidationErrors) (he : WellFormed e) :
    WellFormed (adds.foldl (fun e pr => e.AddError pr.1 pr.2) e) := by
  induction adds generalizing e with
  | nil => exact he
  | cons pr rest ih =>
    rw [List.foldl_cons]
    exact ih _ (wellFormed_addError he pr.1 pr.2)

/-- C8: every aggregate reachable through the public operations (built by
`NewValidationErrors` from walker output, then mutated by any sequence of
`AddError` calls) has each field key at most once and only non-empty
reason lists; and `AddError` acts by appending to the existing reason
list, or creating a singleton list for an absent key. -/
theorem reachable_aggregates_wellFormed (verrs : Option (List FieldError))
    (adds : List (String × String)) :
    WellFormed (adds.foldl (fun e pr => e.AddError pr.1 pr.2)
        (NewValidationErrors verrs)) ∧
    (∀ (e : ValidationErrors) (f r : String),
      lookupKey (e.AddError f r).errors f =
        some ((lookupKey e.errors f).getD [] ++ [r])) := by
  constructor
  · exact wellFormed_foldl_addError adds _ (wellFormed_newValidationErrors verrs)
  · intro e f r
    unfold ValidationErrors.AddError
    cases h : lookupKey e.errors f with
    | some v => simp [lookupKey_setKey, h]
    | none => simp [lookupKey_setKey, h]

/-! ### Serialization (C6) -/

theorem parseStrings_map (rs : List String) :
    parseStrings (rs.map Json.str) = some rs := by
  induction rs with
  | nil => rfl
  | cons s rest ih => simp [parseStrings, ih]

theorem parseReasonArray_strs (rs : List String) :
    parseReasonArray (Json.arr (rs.map Json.str)) = some rs := by
  simp [parseReasonArray, parseStrings_map]

theorem parseEntries_marshal (m : List (String × List String)) :
    parseEntries (m.map (fun p => (p.1, Json.arr (p.2.map Json.str)))) = some m := by
  induction m with
  | nil => rfl
  | cons p rest ih => simp [parseEntries, parseReasonArray_strs, ih]

theorem parseErrorObject_marshal (m : List (String × List String)) :
    parseErrorObject
        (Json.obj (m.map (fun p => (p.1, Json.arr (p.2.map Json.str))))) = some m := by
  simp [parseErrorObject, parseEntries_marshal]

theorem lookupKey_marshal (m : List (String × List String)) (k : String) :
    lookupKey (m.map (fun p => (p.1, Json.arr (p.2.map Json.str)))) k =
      (lookupKey m k).map (fun rs => Json.arr (rs.map Json.str)) := by
  induction m with
  | nil => rfl
  | cons p rest ih =>
    by_cases h : p.1 = k <;> simp [lookupKey, h, ih]

/-- C6: the serialized aggregate is an object whose keys are exactly the
aggregate's field paths, binding each field path to exactly the array of
its reason codes, and parsing the serialization back recovers exactly the
internal field-to-reasons mapping. -/
theorem marshal_mirrors_errors (e : ValidationErrors) :
    objKeys e.MarshalJSON = e.errors.map Prod.fst ∧
    (∀ k, objValue e.MarshalJSON k =
      (lookupKey e.errors k).map (fun rs => Json.arr (rs.map Json.str))) ∧
    parseErrorObject e.MarshalJSON = some e.errors := by
  obtain ⟨m⟩ := e
  refine ⟨?_, ?_, parseErrorObject_marshal m⟩
  · simp [objKeys, ValidationErrors.MarshalJSON]
  · intro k
    simp only [objValue, ValidationErrors.MarshalJSON]
    exact lookupKey_marshal m k

/-! ### Characterizations of the embedded regular expressions -/

theorem opt_rmatch (r : RegularExpression Char) (x : List Char) :
    (1 + r).rmatch x ↔ x = [] ∨ r.rmatch x := by
  rw [add_rmatch_iff, one_rmatch_iff]

theorem optchar_rmatch (c : Char) (x : List Char) :
    (1 + char c).rmatch x ↔ x = [] ∨ x = [c] := by
  rw [opt_rmatch, char_rmatch_iff]

theorem rdigit_rmatch (x : List Char) :
    rdigit.rmatch x ↔ ∃ c, x = [c] ∧ c ∈ digitChars := by
  simp only [rdigit, add_rmatch_iff, char_rmatch_iff]
  constructor
  · rintro (((((((((h | h) | h) | h) | h) | h) | h) | h) | h) | h) <;>
      exact ⟨_, h, by decide⟩
  · rintro ⟨c, rfl, hc⟩
    simp only [digitChars, List.mem_cons, List.not_mem_nil, or_false] at hc
    rcases hc with rfl | rfl | rfl | rfl | rfl | rfl | rfl | rfl | rfl | rfl <;>
      tauto

theorem phoneSep_rmatch (x : List Char) :
    phoneSep.rmatch x ↔ ∃ c, x = [c] ∧ c ∈ phoneSepChars := by
  simp only [phoneSep, add_rmatch_iff, char_rmatch_iff]
  constructor
  · rintro ((h | h) | h) <;> exact ⟨_, h, by decide⟩
  · rintro ⟨c, rfl, hc⟩
    simp only [phoneSepChars, List.mem_cons, List.not_mem_nil, or_false] at hc
    rcases hc with rfl | rfl | rfl <;> tauto

theorem rdigit_digitsSpec (x : List Char) :
    rdigit.rmatch x ↔ digitsSpec 1 x := by
  rw [rdigit_rmatch]
  constructor
  · rintro ⟨c, rfl, hc⟩
    exact ⟨rfl, by simpa⟩
  · rintro ⟨hlen, hall⟩
    obtain ⟨c, rfl⟩ := List.length_eq_one.1 hlen
    exact ⟨c, rfl, hall c (by simp)⟩

theorem digits_mul {r s : RegularExpression Char} {m n : Nat}
    (hr : ∀ x, r.rmatch x ↔ digitsSpec m x)
    (hs : ∀ x, s.rmatch x ↔ digitsSpec n x) (x : List Char) :
    (r * s).rmatch x ↔ digitsSpec (m + n) x := by
  rw [mul_rmatch_iff]
  constructor
  · rintro ⟨t, u, rfl, ht, hu⟩
    rw [hr] at ht
    rw [hs] at hu
    refine ⟨by simp [ht.1, hu.1], ?_⟩
    intro c hc
    rcases List.mem_append.1 hc with h | h
    · exact ht.2 c h
    · exact hu.2 c h
  · rintro ⟨hlen, hall⟩
    refine ⟨x.take m, x.drop m, (List.take_append_drop m x).symm, ?_, ?_⟩
    · rw [hr]
      refine ⟨?_, fun c hc => hall c (List.take_subset m x hc)⟩
      rw [List.length_take]
      omega
    · rw [hs]
      refine ⟨?_, fun c hc => hall c (List.drop_subset m x hc)⟩
      rw [List.length_drop]
      omega

theorem d3_rmatch (x : List Char) :
    (rdigit * rdigit * rdigit).rmatch x ↔ digitsSpec 3 x := by
  have h2 := digits_mul rdigit_digitsSpec rdigit_digitsSpec
  have h3 := digits_mul h2 rdigit_digitsSpec
  simpa using h3 x

theorem d4_rmatch (x : List Char) :
    (rdigit * rdigit * rdigit * rdigit).rmatch x ↔ digitsSpec 4 x := by
  have h2 := digits_mul rdigit_digitsSpec rdigit_digitsSpec
  have h3 := digits_mul h2 rdigit_digitsSpec
  have h4 := digits_mul h3 rdigit_digitsSpec
  simpa using h4 x

theorem flatten_map_singleton (x : List Char) :
    (x.map (fun c => [c])).flatten = x := by
  induction x with
  | nil => rfl
  | cons c rest ih => simp [ih]

theorem star_digit_rmatch (x : List Char) :
    (rdigit.star).rmatch x ↔ ∀ c ∈ x, c ∈ digitChars := by
  rw [star_rmatch_iff]
  constructor
  · rintro ⟨S, rfl, hS⟩
    intro c hc
    rcases List.mem_flatten.1 hc with ⟨t, ht, hct⟩
    rcases hS t ht with ⟨-, hmatch⟩
    rcases (rdigit_rmatch t).mp hmatch with ⟨d, rfl, hd⟩
    rcases List.mem_singleton.1 hct with rfl
    exact hd
  · intro hall
    refine ⟨x.map (fun c => [c]), (flatten_map_singleton x).symm, ?_⟩
    intro t ht
    rcases List.mem_map.1 ht with ⟨c, hc, rfl⟩
    exact ⟨by simp, (rdigit_rmatch [c]).mpr ⟨c, rfl, hall c hc⟩⟩

theorem rep1_digit_rmatch (x : List Char) :
    (rdigit * rdigit.star).rmatch x ↔ x ≠ [] ∧ ∀ c ∈ x, c ∈ digitChars := by
  rw [mul_rmatch_iff]
  constructor
  · rintro ⟨t, u, rfl, ht, hu⟩
    rcases (rdigit_rmatch t).mp ht with ⟨c, rfl, hc⟩
    rw [star_digit_rmatch] at hu
    refine ⟨by simp, ?_⟩
    intro d hd
    rw [List.singleton_append, List.mem_cons] at hd
    rcases hd with rfl | hd
    · exact hc
    · exact hu d hd
  · rintro ⟨hne, hall⟩
    cases x with
    | nil => exact absurd rfl hne
    | cons c rest =>
      refine ⟨[c], rest, by simp, ?_, ?_⟩
      · exact (rdigit_rmatch [c]).mpr ⟨c, rfl, hall c (by simp)⟩
      · rw [star_digit_rmatch]
        exact fun d hd => hall d (by simp [hd])

/-! ### The coordinates predicate (C4) -/

theorem decimalNumber_rmatch (x : List Char) :
    decimalNumber.rmatch x ↔ signedDecimal x := by
  simp only [decimalNumber]
  rw [mul_rmatch_iff]
  constructor
  · rintro ⟨t, u, rfl, ht, hu⟩
    obtain ⟨a, b, rfl, ha, hb⟩ := (mul_rmatch_iff _ _ _).mp ht
    rw [optchar_rmatch] at ha
    rw [rep1_digit_rmatch] at hb
    rw [opt_rmatch] at hu
    refine ⟨a, b, u, by simp [List.append_assoc], ha, hb.1, hb.2, ?_⟩
    rcases hu with rfl | hu
    · exact Or.inl rfl
    · obtain ⟨d, ds, rfl, hd, hds⟩ := (mul_rmatch_iff _ _ _).mp hu
      rw [char_rmatch_iff] at hd
      subst hd
      rw [rep1_digit_rmatch] at hds
      exact Or.inr ⟨ds, rfl, hds.1, hds.2⟩
  · rintro ⟨sign, ip, fp, rfl, hsign, hip, hipd, hfp⟩
    refine ⟨sign ++ ip, fp, by simp [List.append_assoc], ?_, ?_⟩
    · exact (mul_rmatch_iff _ _ _).mpr
        ⟨sign, ip, rfl, (optchar_rmatch _ _).mpr hsign,
          (rep1_digit_rmatch _).mpr ⟨hip, hipd⟩⟩
    · rw [opt_rmatch]
      rcases hfp with rfl | ⟨ds, rfl, hne, hds⟩
      · exact Or.inl rfl
      · exact Or.inr ((mul_rmatch_iff _ _ _).mpr
          ⟨['.'], ds, rfl, (char_rmatch_iff _ _).mpr rfl,
            (rep1_digit_rmatch _).mpr ⟨hne, hds⟩⟩)

theorem coordinates_eq_rmatch (s : String) :
    Coordinates s = validCoordinateRegex.rmatch s.data := by
  cases h : validCoordinateRegex.rmatch s.data <;> simp [Coordinates, h]

/-- C4: the coordinates predicate accepts exactly the strings made of two
signed decimal numbers (an optionally negative integer part with an
optional fractional part) separated by a single comma, with no bound
check on the numeric ranges: it accepts "40.7128,-74.0060" and the
out-of-range "200,40", and rejects "abc,def". -/
theorem coordinates_characterization :
    (∀ s : String, Coordinates s = true ↔ specCoordShape s.data) ∧
    Coordinates "40.7128,-74.0060" = true ∧
    Coordinates "200,40" = true ∧
    Coordinates "abc,def" = false := by
  refine ⟨?_, by decide, by decide, by decide⟩
  intro s
  rw [coordinates_eq_rmatch]
  simp only [validCoordinateRegex]
  constructor
  · intro h
    obtain ⟨t1, rest, heq, h1, hr⟩ := (mul_rmatch_iff _ _ _).mp h
    obtain ⟨t2, t3, heq2, h2, h3⟩ := (mul_rmatch_iff _ _ _).mp hr
    rw [char_rmatch_iff] at h2
    subst heq2
    subst h2
    rw [decimalNumber_rmatch] at h1 h3
    exact ⟨t1, t3, heq, h1, h3⟩
  · rintro ⟨x, y, heq, hx, hy⟩
    rw [heq]
    exact (mul_rmatch_iff _ _ _).mpr ⟨x, ',' :: y, rfl,
      (decimalNumber_rmatch x).mpr hx,
      (mul_rmatch_iff _ _ _).mpr ⟨[','], y, rfl, (char_rmatch_iff _ _).mpr rfl,
        (decimalNumber_rmatch y).mpr hy⟩⟩

/-! ### The phone predicate (C3) -/

/-- C3 counterexample: "(555)123-4567" has the shape the claim describes
(parenthesized area code "(555)", no separator, "123", separator "-",
"4567"), yet the code's predicate rejects it: the pattern demands a
mandatory space after the optional closing parenthesis. -/
theorem phone_claim_counterexample :
    claimPhoneShape ("(555)123-4567".data) ∧ Phone "(555)123-4567" = false := by
  constructor
  · exact ⟨['(', '5', '5', '5', ')'], [], ['1', '2', '3'], ['-'],
      ['4', '5', '6', '7'],
      by decide,
      Or.inr ⟨['5', '5', '5'], by decide, ⟨rfl, by decide⟩⟩,
      Or.inl rfl,
      ⟨rfl, by decide⟩,
      Or.inr ⟨'-', rfl, by decide⟩,
      ⟨rfl, by decide⟩⟩
  · decide

/-- C3 amended: the phone predicate returns true exactly when the value
is an optional opening parenthesis, a mandatory 3-digit area code, an
optional closing parenthesis, a mandatory space, an optional separator,
3 digits, an optional separator, and 4 digits, where each separator is a
hyphen, period, or bullet character. -/
theorem phone_amended_characterization (s : String) :
    Phone s = true ↔ amendedPhoneShape s.data := by
  show validPhoneRegex.rmatch s.data = true ↔ amendedPhoneShape s.data
  simp only [validPhoneRegex]
  constructor
  · intro h
    obtain ⟨t1, r1, heq1, h1, hr1⟩ := (mul_rmatch_iff _ _ _).mp h
    obtain ⟨t2, r2, heq2, h2, hr2⟩ := (mul_rmatch_iff _ _ _).mp hr1
    obtain ⟨t3, r3, heq3, h3, hr3⟩ := (mul_rmatch_iff _ _ _).mp hr2
    obtain ⟨t4, r4, heq4, h4, hr4⟩ := (mul_rmatch_iff _ _ _).mp hr3
    obtain ⟨t5, r5, heq5, h5, hr5⟩ := (mul_rmatch_iff _ _ _).mp hr4
    obtain ⟨t6, r6, heq6, h6, hr6⟩ := (mul_rmatch_iff _ _ _).mp hr5
    obtain ⟨t7, t8, heq7, h7, h8⟩ := (mul_rmatch_iff _ _ _).mp hr6
    rw [optchar_rmatch] at h1 h3
    rw [d3_rmatch] at h2 h6
    rw [char_rmatch_iff] at h4
    rw [opt_rmatch] at h5 h7
    rw [d4_rmatch] at h8
    subst heq7
    subst heq6
    subst heq5
    subst heq4
    subst heq3
    subst heq2
    subst h4
    refine ⟨t1, t2, t3, t5, t6, t7, t8, ?_, h1, h2, h3, ?_, h6, ?_, h8⟩
    · simp only [List.append_assoc]
      exact heq1
    · rcases h5 with rfl | h5
      · exact Or.inl rfl
      · exact Or.inr ((phoneSep_rmatch t5).mp h5)
    · rcases h7 with rfl | h7
      · exact Or.inl rfl
      · exact Or.inr ((phoneSep_rmatch t7).mp h7)
  · rintro ⟨op, d1, cp, s1, mid, s2, l4, heq, hop, hd1, hcp, hs1, hmid, hs2, hl4⟩
    rw [heq]
    simp only [List.append_assoc]
    refine (mul_rmatch_iff _ _ _).mpr
      ⟨op, _, rfl, (optchar_rmatch _ _).mpr hop, ?_⟩
    refine (mul_rmatch_iff _ _ _).mpr
      ⟨d1, _, rfl, (d3_rmatch _).mpr hd1, ?_⟩
    refine (mul_rmatch_iff _ _ _).mpr
      ⟨cp, _, rfl, (optchar_rmatch _ _).mpr hcp, ?_⟩
    refine (mul_rmatch_iff _ _ _).mpr
      ⟨[' '], _, rfl, (char_rmatch_iff _ _).mpr rfl, ?_⟩
    refine (mul_rmatch_iff _ _ _).mpr ⟨s1, _, rfl, ?_, ?_⟩
    · rw [opt_rmatch]
      rcases hs1 with rfl | ⟨c, rfl, hc⟩
      · exact Or.inl rfl
      · exact Or.inr ((phoneSep_rmatch [c]).mpr ⟨c, rfl, hc⟩)
    refine (mul_rmatch_iff _ _ _).mpr
      ⟨mid, _, rfl, (d3_rmatch _).mpr hmid, ?_⟩
    refine (mul_rmatch_iff _ _ _).mpr
      ⟨s2, l4, rfl, ?_, (d4_rmatch _).mpr hl4⟩
    rw [opt_rmatch]
    rcases hs2 with rfl | ⟨c, rfl, hc⟩
    · exact Or.inl rfl
    · exact Or.inr ((phoneSep_rmatch [c]).mpr ⟨c, rfl, hc⟩)
